import Mathlib

/-!
Shallow embedding of the podflow audio playback engine
(`src/hooks/useAudioPlayer.ts`) together with proofs about its queue and
transport state machine.

Modelling conventions:
* The React state record `AudioPlayerState` becomes a Lean structure; each
  action (`playEpisode`, `addToQueue`, `removeFromQueue`, `playNext`,
  `playPrevious`, `togglePlayPause`, `seek`, `skipTime`, `clearQueue`) and
  each media-event handler (`handleEnded`) becomes a pure state
  transformer, translated line by line from the source.
* JavaScript numbers are modelled as `ℚ` (times, durations) and queue
  indices as `Int` (the source stores `-1` for "none" and compares with
  `<`, `===`, `>` on signed values).
* `queue.filter((_, i) => i !== index)` is modelled by the index-aware
  recursion `filterIdxNe`, and `queue.findIndex(q => q.id === episode.id)`
  by `findIdxById` (returning `-1` when absent), exactly as in JS.
* The media element's `currentTime` is mirrored into state by `seek` and
  `handleTimeUpdate` in the source; the model keeps the single mirrored
  `currentTime` field. The element (`audioRef.current`) is assumed
  attached, which is the situation all the specified behaviour concerns.
-/

namespace Podflow

/-- Episode record (`src/types.ts`): id, title, description, publication
timestamp, audio URL, and the two optional denormalized show fields. -/
structure Episode where
  id : String
  title : String
  description : String
  pubDate : Int
  audioUrl : String
  podcastTitle : Option String
  podcastImageUrl : Option String
deriving DecidableEq

/-- The engine state owned by `useAudioPlayer` (`AudioPlayerState` in
`src/types.ts`). -/
structure AudioPlayerState where
  currentEpisode : Option Episode
  isPlaying : Bool
  playbackSpeed : ℚ
  volume : ℚ
  currentTime : ℚ
  duration : ℚ
  queue : List Episode
  currentQueueIndex : Int
deriving DecidableEq

/-- The initial state passed to `useState` (lines 13-22 of the hook). -/
def initialState : AudioPlayerState where
  currentEpisode := none
  isPlaying := false
  playbackSpeed := 1
  volume := 1
  currentTime := 0
  duration := 0
  queue := []
  currentQueueIndex := -1

/-- JavaScript array indexing `l[i]` on a signed index, returning `none`
for a negative or too-large index (JS yields `undefined`). -/
def listGetI (l : List Episode) (i : Int) : Option Episode :=
  if 0 ≤ i then l[i.toNat]? else none

/-- JavaScript `l.findIndex(q => q.id === epId)`: index of the first
element whose `id` equals `epId`, and `-1` when there is none. -/
def findIdxById (epId : String) : List Episode → Int
  | [] => -1
  | e :: rest =>
      if e.id = epId then 0
      else if findIdxById epId rest = -1 then -1
      else findIdxById epId rest + 1

/-- JavaScript `l.filter((_, i) => i !== index)` where `k` is the index of
the first element of `l` within the original array (call sites use
`k = 0`). -/
def filterIdxNe (index : Int) : Int → List Episode → List Episode
  | _, [] => []
  | k, a :: rest =>
      if k = index then filterIdxNe index (k + 1) rest
      else a :: filterIdxNe index (k + 1) rest

/-- `playEpisode(episode)` (lines 58-80): dedup by id via `findIndex`; on
a hit, point `currentQueueIndex` at the existing slot; otherwise append.
`episodeWithMeta = { ...episode }` is a shallow copy, i.e. the same record.
The media-element rebinding side effects of the same function are modelled
separately (`bindLoadedMetadata`). -/
def playEpisode (episode : Episode) (s : AudioPlayerState) : AudioPlayerState :=
  let episodeWithMeta := episode
  let existingQueueIndex := findIdxById episode.id s.queue
  if existingQueueIndex ≠ -1 then
    { s with currentEpisode := some episodeWithMeta
             currentQueueIndex := existingQueueIndex
             isPlaying := true }
  else
    { s with currentEpisode := some episodeWithMeta
             queue := s.queue ++ [episodeWithMeta]
             currentQueueIndex := (s.queue.length : Int)
             isPlaying := true }

/-- `addToQueue(episode)` (lines 110-115): unconditional append. -/
def addToQueue (episode : Episode) (s : AudioPlayerState) : AudioPlayerState :=
  { s with queue := s.queue ++ [episode] }

/-- `removeFromQueue(index)` (lines 117-140), translated branch by
branch. -/
def removeFromQueue (index : Int) (s : AudioPlayerState) : AudioPlayerState :=
  let newQueue := filterIdxNe index 0 s.queue
  if index < s.currentQueueIndex then
    { s with queue := newQueue
             currentQueueIndex := s.currentQueueIndex - 1 }
  else if index = s.currentQueueIndex then
    { s with queue := newQueue
             currentQueueIndex := -1
             currentEpisode := none
             isPlaying := false }
  else
    { s with queue := newQueue }

/-- `playNext()` (lines 142-148). In the source the guarded branch reads
`state.queue[nextIndex]` and hands it to `playEpisode`; the `none` case of
the lookup is unreachable from the states the source runs in (the pointer
stays below `queue.length`), and is modelled as leaving the state
unchanged. -/
def playNext (s : AudioPlayerState) : AudioPlayerState :=
  if s.currentQueueIndex < (s.queue.length : Int) - 1 then
    match listGetI s.queue (s.currentQueueIndex + 1) with
    | some nextEpisode => playEpisode nextEpisode s
    | none => s
  else s

/-- `playPrevious()` (lines 150-156). -/
def playPrevious (s : AudioPlayerState) : AudioPlayerState :=
  if 0 < s.currentQueueIndex then
    match listGetI s.queue (s.currentQueueIndex - 1) with
    | some prevEpisode => playEpisode prevEpisode s
    | none => s
  else s

/-- `togglePlayPause()` (lines 158-160). -/
def togglePlayPause (s : AudioPlayerState) : AudioPlayerState :=
  { s with isPlaying := !s.isPlaying }

/-- `seek(time)` (lines 162-167): writes the element position and mirrors
it into `state.currentTime` (single mirrored field in the model). -/
def seek (time : ℚ) (s : AudioPlayerState) : AudioPlayerState :=
  { s with currentTime := time }

/-- `skipTime(amount)` (lines 169-174): guarded by the truthiness of
`state.duration` (so `duration = 0`, the unknown marker, skips the whole
body), then clamps into `[0, duration]` and delegates to `seek`. -/
def skipTime (amount : ℚ) (s : AudioPlayerState) : AudioPlayerState :=
  if s.duration ≠ 0 then
    seek (max 0 (min s.duration (s.currentTime + amount))) s
  else s

/-- `clearQueue()` (lines 190-198). -/
def clearQueue (s : AudioPlayerState) : AudioPlayerState :=
  { s with queue := []
           currentQueueIndex := -1
           currentEpisode := none
           isPlaying := false }

/-- `handleEnded()` (lines 49-55): flip `isPlaying` off, then auto-advance
when the pointer is not at the last slot. The `playNext` closure reads the
same render's `currentQueueIndex`/`queue`, which the `isPlaying` update
does not touch, so sequencing the two updates is faithful. -/
def handleEnded (s : AudioPlayerState) : AudioPlayerState :=
  let s1 := { s with isPlaying := false }
  if s.currentQueueIndex < (s.queue.length : Int) - 1 then playNext s1 else s1

/-- The engine operations named by the queue/pointer invariant. -/
inductive EngineOp where
  | playEpisode (e : Episode)
  | addToQueue (e : Episode)
  | removeFromQueue (i : Int)
  | playNext
  | playPrevious
  | togglePlayPause
  | clearQueue

/-- Apply one engine operation. -/
def applyOp : EngineOp → AudioPlayerState → AudioPlayerState
  | .playEpisode e, s => playEpisode e s
  | .addToQueue e, s => addToQueue e s
  | .removeFromQueue i, s => removeFromQueue i s
  | .playNext, s => playNext s
  | .playPrevious, s => playPrevious s
  | .togglePlayPause, s => togglePlayPause s
  | .clearQueue, s => clearQueue s

/-- States reachable from `initialState` by any sequence of engine
operations. -/
inductive Reachable : AudioPlayerState → Prop where
  | init : Reachable initialState
  | step {s : AudioPlayerState} (op : EngineOp) :
      Reachable s → Reachable (applyOp op s)

/-- Operations whose `removeFromQueue` argument is nonnegative (every
index the UI can produce). -/
def OpNN : EngineOp → Prop
  | .removeFromQueue i => 0 ≤ i
  | _ => True

/-- States reachable using only nonnegative `removeFromQueue` indices. -/
inductive ReachableNN : AudioPlayerState → Prop where
  | init : ReachableNN initialState
  | step {s : AudioPlayerState} (op : EngineOp) :
      ReachableNN s → OpNN op → ReachableNN (applyOp op s)

/-- The queue/pointer invariant of the specification: a non-null current
episode is the one the pointer designates, and an empty queue forces the
null episode and `-1` pointer. -/
def QueueInvariant (s : AudioPlayerState) : Prop :=
  (∀ e, s.currentEpisode = some e →
      ∃ q, listGetI s.queue s.currentQueueIndex = some q ∧ q.id = e.id) ∧
  (s.queue = [] → s.currentEpisode = none ∧ s.currentQueueIndex = -1)

/-- Inductive strengthening of `QueueInvariant`: with no current episode
the pointer is exactly `-1`. -/
def StrongInv (s : AudioPlayerState) : Prop :=
  (∀ e, s.currentEpisode = some e →
      ∃ q, listGetI s.queue s.currentQueueIndex = some q ∧ q.id = e.id) ∧
  (s.currentEpisode = none → s.currentQueueIndex = -1)

/-! ### Helper lemmas about the JS array primitives -/

theorem listGetI_nil (i : Int) : listGetI [] i = none := by
  simp [listGetI]

theorem listGetI_zero (a : Episode) (l : List Episode) :
    listGetI (a :: l) 0 = some a := by
  simp [listGetI]

theorem listGetI_cons_succ (a : Episode) (l : List Episode) {i : Int}
    (h : 0 ≤ i) : listGetI (a :: l) (i + 1) = listGetI l i := by
  have h1 : (0 : Int) ≤ i + 1 := by omega
  have h2 : (i + 1).toNat = i.toNat + 1 := by omega
  simp [listGetI, h, h1, h2]

theorem listGetI_bounds {l : List Episode} {i : Int} {a : Episode}
    (h : listGetI l i = some a) : 0 ≤ i ∧ i < (l.length : Int) := by
  unfold listGetI at h
  split at h
  · rename_i h0
    refine ⟨h0, ?_⟩
    by_contra hlt
    push_neg at hlt
    have hle : l.length ≤ i.toNat := by omega
    rw [List.getElem?_eq_none hle] at h
    exact Option.noConfusion h
  · exact Option.noConfusion h

theorem listGetI_append_left {l l2 : List Episode} {i : Int} (h0 : 0 ≤ i)
    (h : i < (l.length : Int)) : listGetI (l ++ l2) i = listGetI l i := by
  have hn : i.toNat < l.length := by omega
  simp [listGetI, h0, List.getElem?_append_left hn]

theorem listGetI_concat_length (l : List Episode) (a : Episode) :
    listGetI (l ++ [a]) (l.length : Int) = some a := by
  simp [listGetI, List.getElem?_concat_length]

theorem listGetI_eraseIdx_of_lt {l : List Episode} {i j : Int} (h0 : 0 ≤ j)
    (hji : j < i) : listGetI (l.eraseIdx i.toNat) j = listGetI l j := by
  have hn : j.toNat < i.toNat := by omega
  simp [listGetI, h0, List.getElem?_eraseIdx_of_lt l i.toNat j.toNat hn]

theorem listGetI_eraseIdx_of_ge {l : List Episode} {i j : Int} (hi : 0 ≤ i)
    (hij : i ≤ j) :
    listGetI (l.eraseIdx i.toNat) j = listGetI l (j + 1) := by
  have h0 : (0 : Int) ≤ j := le_trans hi hij
  have h1 : i.toNat ≤ j.toNat := by omega
  have h2 : (j + 1).toNat = j.toNat + 1 := by omega
  have h3 : (0 : Int) ≤ j + 1 := by omega
  simp only [listGetI, if_pos h0, if_pos h3, h2,
    List.getElem?_eraseIdx_of_ge l i.toNat j.toNat h1]

theorem filterIdxNe_of_lt {index : Int} (l : List Episode) :
    ∀ {k : Int}, index < k → filterIdxNe index k l = l := by
  induction l with
  | nil => intro k _; rfl
  | cons a rest ih =>
      intro k h
      have hne : ¬(k = index) := by omega
      simp only [filterIdxNe, if_neg hne]
      rw [ih (by omega)]

theorem filterIdxNe_eq_eraseIdx {index : Int} (l : List Episode) :
    ∀ {k : Int}, k ≤ index →
      filterIdxNe index k l = l.eraseIdx (index - k).toNat := by
  induction l with
  | nil => intro k _; simp [filterIdxNe, List.eraseIdx]
  | cons a rest ih =>
      intro k h
      by_cases hk : k = index
      · subst hk
        simp only [filterIdxNe, if_pos rfl]
        rw [filterIdxNe_of_lt rest (by omega)]
        have h0 : (k - k).toNat = 0 := by omega
        simp [h0]
      · simp only [filterIdxNe, if_neg hk]
        rw [ih (by omega)]
        have h0 : (index - k).toNat = (index - (k + 1)).toNat + 1 := by omega
        rw [h0]
        rfl

theorem filterIdxNe_zero_nonneg {index : Int} (h : 0 ≤ index)
    (l : List Episode) : filterIdxNe index 0 l = l.eraseIdx index.toNat := by
  have h2 := @filterIdxNe_eq_eraseIdx index l 0 h
  simpa using h2

theorem filterIdxNe_zero_neg {index : Int} (h : index < 0)
    (l : List Episode) : filterIdxNe index 0 l = l := by
  exact filterIdxNe_of_lt l h

theorem filterIdxNe_zero_ge {index : Int} (l : List Episode)
    (h : (l.length : Int) ≤ index) : filterIdxNe index 0 l = l := by
  rw [filterIdxNe_zero_nonneg (by omega) l]
  exact List.eraseIdx_of_length_le (by omega)

/-! ### Helper lemmas about `findIdxById` -/

theorem findIdxById_cases (epId : String) (l : List Episode) :
    findIdxById epId l = -1 ∨ 0 ≤ findIdxById epId l := by
  induction l with
  | nil => exact Or.inl rfl
  | cons a rest ih =>
      by_cases ha : a.id = epId
      · right; simp [findIdxById, ha]
      · rcases ih with h2 | h2
        · left; simp [findIdxById, ha, h2]
        · by_cases h3 : findIdxById epId rest = -1
          · left; simp [findIdxById, ha, h3]
          · right; simp only [findIdxById, if_neg ha, if_neg h3]; omega

theorem findIdxById_spec (epId : String) (l : List Episode)
    (h : findIdxById epId l ≠ -1) :
    ∃ q, listGetI l (findIdxById epId l) = some q ∧ q.id = epId := by
  induction l with
  | nil => exact absurd rfl h
  | cons a rest ih =>
      by_cases ha : a.id = epId
      · refine ⟨a, ?_, ha⟩
        simp [findIdxById, ha, listGetI]
      · by_cases hr : findIdxById epId rest = -1
        · exact absurd (by simp [findIdxById, ha, hr]) h
        · have h0 : 0 ≤ findIdxById epId rest := by
            rcases findIdxById_cases epId rest with h2 | h2
            · exact absurd h2 hr
            · exact h2
          have heq : findIdxById epId (a :: rest) = findIdxById epId rest + 1 := by
            simp [findIdxById, ha, hr]
          rw [heq, listGetI_cons_succ a rest h0]
          exact ih hr

theorem findIdxById_eq_neg_iff (epId : String) (l : List Episode) :
    findIdxById epId l = -1 ↔ ∀ q ∈ l, q.id ≠ epId := by
  induction l with
  | nil => simp [findIdxById]
  | cons a rest ih =>
      by_cases ha : a.id = epId
      · simp only [findIdxById, if_pos ha]
        constructor
        · intro h; exact absurd h (by decide)
        · intro h; exact absurd ha (h a (List.mem_cons_self a rest))
      · by_cases hr : findIdxById epId rest = -1
        · simp only [findIdxById, if_neg ha, if_pos hr]
          constructor
          · intro _ q hq
            rcases List.mem_cons.mp hq with h1 | h1
            · subst h1; exact ha
            · exact (ih.mp hr) q h1
          · intro _; trivial
        · simp only [findIdxById, if_neg ha, if_neg hr]
          constructor
          · intro h
            have h0 : 0 ≤ findIdxById epId rest := by
              rcases findIdxById_cases epId rest with h2 | h2
              · exact absurd h2 hr
              · exact h2
            omega
          · intro h
            exact absurd (ih.mpr (fun q hq => h q (List.mem_cons_of_mem a hq))) hr

theorem findIdxById_min (epId : String) (l : List Episode) :
    ∀ {j : Int}, 0 ≤ j → j < findIdxById epId l →
      ∀ q, listGetI l j = some q → q.id ≠ epId := by
  induction l with
  | nil =>
      intro j _ _ q hq
      rw [listGetI_nil] at hq
      exact Option.noConfusion hq
  | cons a rest ih =>
      intro j h0 hj q hq
      by_cases ha : a.id = epId
      · rw [show findIdxById epId (a :: rest) = 0 by simp [findIdxById, ha]] at hj
        omega
      · by_cases hr : findIdxById epId rest = -1
        · rw [show findIdxById epId (a :: rest) = -1 by
            simp [findIdxById, ha, hr]] at hj
          omega
        · have heq : findIdxById epId (a :: rest) = findIdxById epId rest + 1 := by
            simp [findIdxById, ha, hr]
          rw [heq] at hj
          by_cases hj0 : j = 0
          · subst hj0
            rw [listGetI_zero] at hq
            injection hq with hq2
            subst hq2
            exact ha
          · have h1 : (0 : Int) ≤ j - 1 := by omega
            have h2 : listGetI (a :: rest) j = listGetI rest (j - 1) := by
              have h3 := listGetI_cons_succ a rest h1
              rw [sub_add_cancel] at h3
              exact h3
            rw [h2] at hq
            exact ih h1 (by omega) q hq

/-! ### Branch equations for `removeFromQueue` -/

theorem removeFromQueue_lt_eq {s : AudioPlayerState} {i : Int}
    (h : i < s.currentQueueIndex) :
    removeFromQueue i s =
      { s with queue := filterIdxNe i 0 s.queue
               currentQueueIndex := s.currentQueueIndex - 1 } := by
  simp only [removeFromQueue, if_pos h]

theorem removeFromQueue_eq_eq {s : AudioPlayerState} {i : Int}
    (h : i = s.currentQueueIndex) :
    removeFromQueue i s =
      { s with queue := filterIdxNe i 0 s.queue
               currentQueueIndex := -1
               currentEpisode := none
               isPlaying := false } := by
  simp only [removeFromQueue, if_neg (by omega : ¬i < s.currentQueueIndex),
    if_pos h]

theorem removeFromQueue_gt_eq {s : AudioPlayerState} {i : Int}
    (h : s.currentQueueIndex < i) :
    removeFromQueue i s = { s with queue := filterIdxNe i 0 s.queue } := by
  simp only [removeFromQueue, if_neg (by omega : ¬i < s.currentQueueIndex),
    if_neg (by omega : ¬i = s.currentQueueIndex)]

/-! ### Preservation of the strong queue/pointer invariant -/

theorem strongInv_initial : StrongInv initialState := by
  constructor
  · intro e he; exact Option.noConfusion he
  · intro _; rfl

theorem strongInv_playEpisode (e : Episode) (s : AudioPlayerState) :
    StrongInv (playEpisode e s) := by
  simp only [playEpisode]
  split
  · rename_i hne
    constructor
    · intro e2 he2
      injection he2 with he3
      subst he3
      show ∃ q, listGetI s.queue (findIdxById e.id s.queue) = some q ∧
        q.id = e.id
      exact findIdxById_spec e.id s.queue hne
    · intro hnone; exact Option.noConfusion hnone
  · constructor
    · intro e2 he2
      injection he2 with he3
      subst he3
      exact ⟨e, listGetI_concat_length s.queue e, rfl⟩
    · intro hnone; exact Option.noConfusion hnone

theorem strongInv_addToQueue {s : AudioPlayerState} (h : StrongInv s)
    (e : Episode) : StrongInv (addToQueue e s) := by
  obtain ⟨h1, h2⟩ := h
  constructor
  · intro e2 he2
    obtain ⟨q, hq, hqid⟩ := h1 e2 he2
    obtain ⟨hb1, hb2⟩ := listGetI_bounds hq
    refine ⟨q, ?_, hqid⟩
    show listGetI (s.queue ++ [e]) s.currentQueueIndex = some q
    rw [listGetI_append_left hb1 hb2]
    exact hq
  · intro hnone; exact h2 hnone

theorem strongInv_removeFromQueue {s : AudioPlayerState} (h : StrongInv s)
    {i : Int} (hi : 0 ≤ i) : StrongInv (removeFromQueue i s) := by
  obtain ⟨h1, h2⟩ := h
  rcases lt_trichotomy i s.currentQueueIndex with hlt | heq | hgt
  · rw [removeFromQueue_lt_eq hlt, filterIdxNe_zero_nonneg hi]
    constructor
    · intro e he
      obtain ⟨q, hq, hqid⟩ := h1 e he
      refine ⟨q, ?_, hqid⟩
      show listGetI (s.queue.eraseIdx i.toNat) (s.currentQueueIndex - 1) =
        some q
      rw [listGetI_eraseIdx_of_ge hi (by omega), sub_add_cancel]
      exact hq
    · intro hnone
      have := h2 hnone
      omega
  · rw [removeFromQueue_eq_eq heq]
    constructor
    · intro e he; exact Option.noConfusion he
    · intro _; rfl
  · rw [removeFromQueue_gt_eq hgt, filterIdxNe_zero_nonneg hi]
    constructor
    · intro e he
      obtain ⟨q, hq, hqid⟩ := h1 e he
      obtain ⟨hb1, hb2⟩ := listGetI_bounds hq
      refine ⟨q, ?_, hqid⟩
      show listGetI (s.queue.eraseIdx i.toNat) s.currentQueueIndex = some q
      rw [listGetI_eraseIdx_of_lt hb1 hgt]
      exact hq
    · intro hnone; exact h2 hnone

theorem strongInv_playNext {s : AudioPlayerState} (h : StrongInv s) :
    StrongInv (playNext s) := by
  unfold playNext
  split
  · split
    · exact strongInv_playEpisode _ s
    · exact h
  · exact h

theorem strongInv_playPrevious {s : AudioPlayerState} (h : StrongInv s) :
    StrongInv (playPrevious s) := by
  unfold playPrevious
  split
  · split
    · exact strongInv_playEpisode _ s
    · exact h
  · exact h

theorem strongInv_togglePlayPause {s : AudioPlayerState} (h : StrongInv s) :
    StrongInv (togglePlayPause s) := by
  obtain ⟨h1, h2⟩ := h
  exact ⟨h1, h2⟩

theorem strongInv_clearQueue (s : AudioPlayerState) :
    StrongInv (clearQueue s) := by
  constructor
  · intro e he; exact Option.noConfusion he
  · intro _; rfl

theorem strongInv_applyOp {s : AudioPlayerState} (h : StrongInv s)
    (op : EngineOp) (hop : OpNN op) : StrongInv (applyOp op s) := by
  cases op with
  | playEpisode e => exact strongInv_playEpisode e s
  | addToQueue e => exact strongInv_addToQueue h e
  | removeFromQueue i => exact strongInv_removeFromQueue h hop
  | playNext => exact strongInv_playNext h
  | playPrevious => exact strongInv_playPrevious h
  | togglePlayPause => exact strongInv_togglePlayPause h
  | clearQueue => exact strongInv_clearQueue s

theorem reachableNN_strongInv {s : AudioPlayerState} (h : ReachableNN s) :
    StrongInv s := by
  induction h with
  | init => exact strongInv_initial
  | step op _ hop ih => exact strongInv_applyOp ih op hop

theorem strongInv_queueInvariant {s : AudioPlayerState} (h : StrongInv s) :
    QueueInvariant s := by
  obtain ⟨h1, h2⟩ := h
  refine ⟨h1, ?_⟩
  intro hq
  cases he : s.currentEpisode with
  | none => exact ⟨rfl, h2 he⟩
  | some e =>
      obtain ⟨q, hqe, _⟩ := h1 e he
      rw [hq, listGetI_nil] at hqe
      exact Option.noConfusion hqe

/-! ### The pointer stays below the queue length in every reachable state,
including states reached through negative `removeFromQueue` indices -/

def IdxLtLen (s : AudioPlayerState) : Prop :=
  s.currentQueueIndex < (s.queue.length : Int)

theorem idxLt_playEpisode (e : Episode) (s : AudioPlayerState) :
    IdxLtLen (playEpisode e s) := by
  unfold IdxLtLen
  simp only [playEpisode]
  split
  · rename_i hne
    obtain ⟨q, hq, _⟩ := findIdxById_spec e.id s.queue hne
    obtain ⟨_, hb⟩ := listGetI_bounds hq
    show findIdxById e.id s.queue < (s.queue.length : Int)
    exact hb
  · show (s.queue.length : Int) < ((s.queue ++ [e]).length : Int)
    simp only [List.length_append, List.length_cons, List.length_nil]
    omega

theorem idxLt_addToQueue {s : AudioPlayerState} (h : IdxLtLen s)
    (e : Episode) : IdxLtLen (addToQueue e s) := by
  unfold IdxLtLen at h
  show s.currentQueueIndex < ((s.queue ++ [e]).length : Int)
  simp only [List.length_append, List.length_cons, List.length_nil]
  omega

theorem idxLt_removeFromQueue {s : AudioPlayerState} (h : IdxLtLen s)
    (i : Int) : IdxLtLen (removeFromQueue i s) := by
  unfold IdxLtLen at h
  by_cases hneg : i < 0
  · rcases lt_trichotomy i s.currentQueueIndex with hlt | heq | hgt
    · rw [removeFromQueue_lt_eq hlt, filterIdxNe_zero_neg hneg]
      show s.currentQueueIndex - 1 < (s.queue.length : Int)
      omega
    · rw [removeFromQueue_eq_eq heq, filterIdxNe_zero_neg hneg]
      show (-1 : Int) < (s.queue.length : Int)
      omega
    · rw [removeFromQueue_gt_eq hgt, filterIdxNe_zero_neg hneg]
      exact h
  · push_neg at hneg
    have hlen := List.length_eraseIdx s.queue i.toNat
    rcases lt_trichotomy i s.currentQueueIndex with hlt | heq | hgt
    · rw [removeFromQueue_lt_eq hlt, filterIdxNe_zero_nonneg hneg]
      show s.currentQueueIndex - 1 < ((s.queue.eraseIdx i.toNat).length : Int)
      rw [hlen]
      split
      · omega
      · omega
    · rw [removeFromQueue_eq_eq heq, filterIdxNe_zero_nonneg hneg]
      show (-1 : Int) < ((s.queue.eraseIdx i.toNat).length : Int)
      omega
    · rw [removeFromQueue_gt_eq hgt, filterIdxNe_zero_nonneg hneg]
      show s.currentQueueIndex < ((s.queue.eraseIdx i.toNat).length : Int)
      rw [hlen]
      split
      · omega
      · omega

theorem idxLt_playNext {s : AudioPlayerState} (h : IdxLtLen s) :
    IdxLtLen (playNext s) := by
  unfold playNext
  split
  · split
    · exact idxLt_playEpisode _ s
    · exact h
  · exact h

theorem idxLt_playPrevious {s : AudioPlayerState} (h : IdxLtLen s) :
    IdxLtLen (playPrevious s) := by
  unfold playPrevious
  split
  · split
    · exact idxLt_playEpisode _ s
    · exact h
  · exact h

theorem idxLt_applyOp {s : AudioPlayerState} (h : IdxLtLen s)
    (op : EngineOp) : IdxLtLen (applyOp op s) := by
  cases op with
  | playEpisode e => exact idxLt_playEpisode e s
  | addToQueue e => exact idxLt_addToQueue h e
  | removeFromQueue i => exact idxLt_removeFromQueue h i
  | playNext => exact idxLt_playNext h
  | playPrevious => exact idxLt_playPrevious h
  | togglePlayPause => exact h
  | clearQueue =>
      show (-1 : Int) < (([] : List Episode).length : Int)
      omega

theorem reachable_idxLt {s : AudioPlayerState} (h : Reachable s) :
    IdxLtLen s := by
  induction h with
  | init =>
      show (-1 : Int) < (([] : List Episode).length : Int)
      omega
  | step op _ ih => exact idxLt_applyOp ih op

/-! ### Branch equations for `playEpisode` and concrete episode records -/

theorem findIdxById_ne_neg {epId : String} {l : List Episode}
    (hex : ∃ q ∈ l, q.id = epId) : findIdxById epId l ≠ -1 := by
  intro hcontra
  obtain ⟨q, hq, hid⟩ := hex
  exact (findIdxById_eq_neg_iff epId l).mp hcontra q hq hid

theorem playEpisode_existing_eq {s : AudioPlayerState} {e : Episode}
    (hne : findIdxById e.id s.queue ≠ -1) :
    playEpisode e s =
      { s with currentEpisode := some e
               currentQueueIndex := findIdxById e.id s.queue
               isPlaying := true } := by
  simp only [playEpisode, if_pos hne]

theorem playEpisode_new_eq {s : AudioPlayerState} {e : Episode}
    (hne : findIdxById e.id s.queue = -1) :
    playEpisode e s =
      { s with currentEpisode := some e
               queue := s.queue ++ [e]
               currentQueueIndex := (s.queue.length : Int)
               isPlaying := true } := by
  simp only [playEpisode]
  rw [if_neg (fun hc => hc hne)]

/-- Concrete episode used by the witnesses. -/
def epA : Episode :=
  ⟨"ep-a", "Alpha", "first", 0, "audio-a", none, none⟩

/-- Second concrete episode, distinct id. -/
def epB : Episode :=
  ⟨"ep-b", "Beta", "second", 0, "audio-b", none, none⟩

/--Concrete episode sharing the id of `epA` but differing on every other
field, as a feed refresh can produce. -/
def epA2 : Episode :=
  ⟨"ep-a", "Alpha remastered", "first again", 1, "audio-a2", none, none⟩

/-! ### Claim theorems -/

/-- C2 counterexample: `removeFromQueue` with the out-of-range index `-1`
is not a no-op on the reachable state `playEpisode epA initialState`: it
drags `currentQueueIndex` from `0` to `-1` (the filter leaves the queue
alone, but the pointer branch compares `-1 < 0`). -/
theorem c2_counterexample :
    Reachable (playEpisode epA initialState) ∧
    (playEpisode epA initialState).currentQueueIndex = 0 ∧
    (removeFromQueue (-1) (playEpisode epA initialState)).currentQueueIndex
      = -1 := by
  refine ⟨Reachable.step (EngineOp.playEpisode epA) Reachable.init, ?_, ?_⟩
  · decide
  · decide

/-- C2 (amended): on every reachable engine state, `removeFromQueue` with
an index at or beyond the queue length leaves the entire state unchanged
(and the function is total, so nothing is thrown). The counterexample
forces the amendment to drop negative indices from the no-op guarantee:
only the upper out-of-range side is a no-op. -/
theorem c2_remove_out_of_range_noop {s : AudioPlayerState}
    (h : Reachable s) {i : Int} (hi : (s.queue.length : Int) ≤ i) :
    removeFromQueue i s = s := by
  have hw := reachable_idxLt h
  unfold IdxLtLen at hw
  rw [removeFromQueue_gt_eq (by omega), filterIdxNe_zero_ge s.queue hi]

/-- Witness for C2 (amended) at a concrete reachable one-element state
and index 5. -/
theorem c2_remove_out_of_range_noop_witness :
    removeFromQueue 5 (playEpisode epA initialState) =
      playEpisode epA initialState :=
  c2_remove_out_of_range_noop
    (Reachable.step (EngineOp.playEpisode epA) Reachable.init) (by decide)

/-- C4: `playEpisode` deduplicates by id. With a matching entry present,
the queue keeps its length, the pointer moves to the first matching slot
(no earlier slot matches), and `isPlaying` is set; with no match, the
episode is appended, the pointer becomes the new last index, and
`isPlaying` is set. -/
theorem c4_playEpisode_dedup (s : AudioPlayerState) (e : Episode) :
    ((∃ q ∈ s.queue, q.id = e.id) →
      (playEpisode e s).queue.length = s.queue.length ∧
      (playEpisode e s).currentQueueIndex = findIdxById e.id s.queue ∧
      (∃ q, listGetI s.queue (findIdxById e.id s.queue) = some q ∧
        q.id = e.id) ∧
      (∀ j : Int, 0 ≤ j → j < findIdxById e.id s.queue →
        ∀ q, listGetI s.queue j = some q → q.id ≠ e.id) ∧
      (playEpisode e s).isPlaying = true) ∧
    ((∀ q ∈ s.queue, q.id ≠ e.id) →
      (playEpisode e s).queue = s.queue ++ [e] ∧
      (playEpisode e s).currentQueueIndex = (s.queue.length : Int) ∧
      (playEpisode e s).isPlaying = true) := by
  constructor
  · intro hex
    have hne := findIdxById_ne_neg hex
    rw [playEpisode_existing_eq hne]
    exact ⟨rfl, rfl, findIdxById_spec e.id s.queue hne,
      fun j h0 hj q hq => findIdxById_min e.id s.queue h0 hj q hq, rfl⟩
  · intro hall
    rw [playEpisode_new_eq ((findIdxById_eq_neg_iff e.id s.queue).mpr hall)]
    exact ⟨rfl, rfl, rfl⟩

/-- Witness for C4 at a queue already holding `epA`: replaying it keeps
the length at 1. -/
theorem c4_playEpisode_dedup_witness :
    (playEpisode epA (addToQueue epA initialState)).queue.length =
      (addToQueue epA initialState).queue.length :=
  ((c4_playEpisode_dedup (addToQueue epA initialState) epA).1
    ⟨epA, by decide, rfl⟩).1

/-- C5: in-range removal. Below the pointer, the slot is deleted and the
pointer shifts down by one, episode and playing flag untouched; at the
pointer, playback fully resets; above the pointer, pointer, episode and
flag are untouched. -/
theorem c5_removeFromQueue_inrange (s : AudioPlayerState) (i : Int)
    (h0 : 0 ≤ i) (_hlen : i < (s.queue.length : Int)) :
    (i < s.currentQueueIndex →
      (removeFromQueue i s).queue = s.queue.eraseIdx i.toNat ∧
      (removeFromQueue i s).currentQueueIndex = s.currentQueueIndex - 1 ∧
      (removeFromQueue i s).currentEpisode = s.currentEpisode ∧
      (removeFromQueue i s).isPlaying = s.isPlaying) ∧
    (i = s.currentQueueIndex →
      (removeFromQueue i s).currentEpisode = none ∧
      (removeFromQueue i s).isPlaying = false ∧
      (removeFromQueue i s).currentQueueIndex = -1) ∧
    (s.currentQueueIndex < i →
      (removeFromQueue i s).currentQueueIndex = s.currentQueueIndex ∧
      (removeFromQueue i s).currentEpisode = s.currentEpisode ∧
      (removeFromQueue i s).isPlaying = s.isPlaying) := by
  refine ⟨?_, ?_, ?_⟩
  · intro hlt
    rw [removeFromQueue_lt_eq hlt, filterIdxNe_zero_nonneg h0]
    exact ⟨rfl, rfl, rfl, rfl⟩
  · intro heq
    rw [removeFromQueue_eq_eq heq]
    exact ⟨rfl, rfl, rfl⟩
  · intro hgt
    rw [removeFromQueue_gt_eq hgt]
    exact ⟨rfl, rfl, rfl⟩

/-- Witness for C5: removing index 0 below the playing slot 1 decrements
the pointer. -/
theorem c5_removeFromQueue_inrange_witness :
    (removeFromQueue 0
        (playEpisode epB (addToQueue epA initialState))).currentQueueIndex =
      (playEpisode epB (addToQueue epA initialState)).currentQueueIndex - 1 :=
  ((c5_removeFromQueue_inrange (playEpisode epB (addToQueue epA initialState))
    0 (by decide) (by decide)).1 (by decide)).2.1

/-- C6: `playNext` is a no-op at the last queue position and
`playPrevious` at position 0 or below (no wraparound); otherwise each
delegates to `playEpisode` on the adjacent queue entry. -/
theorem c6_adjacent_navigation (s : AudioPlayerState) :
    (s.currentQueueIndex = (s.queue.length : Int) - 1 → playNext s = s) ∧
    (s.currentQueueIndex ≤ 0 → playPrevious s = s) ∧
    (∀ e, s.currentQueueIndex < (s.queue.length : Int) - 1 →
      listGetI s.queue (s.currentQueueIndex + 1) = some e →
      playNext s = playEpisode e s) ∧
    (∀ e, 0 < s.currentQueueIndex →
      listGetI s.queue (s.currentQueueIndex - 1) = some e →
      playPrevious s = playEpisode e s) := by
  refine ⟨?_, ?_, ?_, ?_⟩
  · intro h
    unfold playNext
    rw [if_neg (by omega)]
  · intro h
    unfold playPrevious
    rw [if_neg (by omega)]
  · intro e hlt hget
    unfold playNext
    rw [if_pos hlt, hget]
  · intro e hlt hget
    unfold playPrevious
    rw [if_pos hlt, hget]

/-- Witness for C6: with one queued episode and the pointer on it,
`playNext` changes nothing. -/
theorem c6_adjacent_navigation_witness :
    playNext (playEpisode epA initialState) = playEpisode epA initialState :=
  (c6_adjacent_navigation (playEpisode epA initialState)).1 (by decide)

/-- C10 (implicit frame effect): playing an id already in the queue
leaves the queue value entirely unchanged — the stored entry is not
replaced — while `currentEpisode` becomes the argument record itself, so
the pair agree on id through the pointer but on nothing else in general:
the concrete instance plays `epA2` over a queue holding `epA` (same id,
different title) and ends with `currentEpisode = epA2` against the stored
`epA`. -/
theorem c10_playEpisode_existing_frame :
    (∀ (s : AudioPlayerState) (e : Episode), (∃ q ∈ s.queue, q.id = e.id) →
      (playEpisode e s).queue = s.queue ∧
      (playEpisode e s).currentEpisode = some e ∧
      ∃ q, listGetI (playEpisode e s).queue
          (playEpisode e s).currentQueueIndex = some q ∧ q.id = e.id) ∧
    ((playEpisode epA2 (addToQueue epA initialState)).currentEpisode
        = some epA2 ∧
      (playEpisode epA2 (addToQueue epA initialState)).queue = [epA] ∧
      epA.id = epA2.id ∧ epA.title ≠ epA2.title) := by
  constructor
  · intro s e hex
    have hne := findIdxById_ne_neg hex
    rw [playEpisode_existing_eq hne]
    exact ⟨rfl, rfl, findIdxById_spec e.id s.queue hne⟩
  · refine ⟨?_, ?_, ?_, ?_⟩ <;> decide

/-- Witness for the universally quantified part of C10 at the concrete
retitled episode. -/
theorem c10_playEpisode_existing_frame_witness :
    (playEpisode epA2 (addToQueue epA initialState)).queue =
      (addToQueue epA initialState).queue :=
  ((c10_playEpisode_existing_frame).1 (addToQueue epA initialState) epA2
    ⟨epA, by decide, rfl⟩).1

/-- C1 counterexample: the claim quantifies over every sequence of the
listed engine operations, and `removeFromQueue (-1)` is such an
operation; after `playEpisode epA` it yields a reachable state whose
`currentEpisode` is non-null while `queue[currentQueueIndex]` does not
exist (the pointer was dragged to `-1`). -/
theorem c1_counterexample :
    Reachable (removeFromQueue (-1) (playEpisode epA initialState)) ∧
    (removeFromQueue (-1) (playEpisode epA initialState)).currentEpisode
      ≠ none ∧
    listGetI (removeFromQueue (-1) (playEpisode epA initialState)).queue
      (removeFromQueue (-1) (playEpisode epA initialState)).currentQueueIndex
      = none := by
  refine ⟨?_, ?_, ?_⟩
  · exact Reachable.step (EngineOp.removeFromQueue (-1))
      (Reachable.step (EngineOp.playEpisode epA) Reachable.init)
  · decide
  · decide

/-- C1 (amended): restrict the operation sequences to nonnegative
`removeFromQueue` indices — the only calls the UI issues, and exactly the
restriction the counterexample forces — and the queue/pointer invariant
holds in every reachable state: a non-null `currentEpisode` has
`queue[currentQueueIndex]` existing with the same id, and an empty queue
forces `currentEpisode = null` and `currentQueueIndex = -1`. -/
theorem c1_queue_invariant {s : AudioPlayerState} (h : ReachableNN s) :
    QueueInvariant s :=
  strongInv_queueInvariant (reachableNN_strongInv h)

/-- Witness for C1 (amended) at the concrete reachable state after
`playEpisode epA`. -/
theorem c1_queue_invariant_witness :
    QueueInvariant (applyOp (EngineOp.playEpisode epA) initialState) :=
  c1_queue_invariant
    (ReachableNN.step (EngineOp.playEpisode epA) ReachableNN.init trivial)

/-- C3 counterexample: with an unknown duration (`0`) the claim says the
lower bound is still enforced, so `skipTime (-30)` from `currentTime =
10` should land on `0`; the code guards the whole body behind the
truthiness of `state.duration` and leaves `currentTime` at `10`. -/
theorem c3_counterexample :
    ({ initialState with currentTime := 10 } : AudioPlayerState).duration
      = 0 ∧
    (skipTime (-30)
      { initialState with currentTime := 10 }).currentTime = 10 := by
  constructor
  · rfl
  · decide

/-- C3 (amended): with a known (non-zero) duration, `skipTime delta`
clamps `currentTime + delta` into `[0, duration]` — in particular both
concrete examples of the claim, which run at duration 180, hold. With an
unknown duration (`0`, the falsy marker; `NaN` is likewise falsy in JS),
`skipTime` is a complete no-op: the counterexample forces the amendment
to drop the lower-bound-only clamping claimed for that case. -/
theorem c3_skipTime_clamps (s : AudioPlayerState) (d : ℚ) :
    (s.duration ≠ 0 →
      (skipTime d s).currentTime
        = max 0 (min s.duration (s.currentTime + d))) ∧
    (s.duration = 0 → skipTime d s = s) ∧
    (s.duration = 180 → s.currentTime = 170 →
      (skipTime 30 s).currentTime ≤ 180) ∧
    (s.duration = 180 → s.currentTime = 10 →
      (skipTime (-30) s).currentTime = 0) := by
  have key : ∀ d2 : ℚ, s.duration ≠ 0 →
      (skipTime d2 s).currentTime
        = max 0 (min s.duration (s.currentTime + d2)) := by
    intro d2 h
    simp [skipTime, seek, h]
  refine ⟨key d, ?_, ?_, ?_⟩
  · intro h
    simp [skipTime, h]
  · intro hd hc
    rw [key 30 (by rw [hd]; norm_num), hd, hc]
    norm_num
  · intro hd hc
    rw [key (-30) (by rw [hd]; norm_num), hd, hc]
    norm_num

/-- Witness for C3 (amended): the forward-skip example at duration 180. -/
theorem c3_skipTime_clamps_witness :
    (skipTime 30
      { initialState with duration := 180, currentTime := 170 }).currentTime
      ≤ 180 :=
  (c3_skipTime_clamps
    { initialState with duration := 180, currentTime := 170 } 30).2.2.1
    rfl rfl

/-- C7: `handleEnded` at the last queue position only clears the playing
flag — queue and pointer are untouched and playback stops; off the last
position it flips the flag and immediately auto-advances through
`playNext`, so the next queue entry becomes current and `isPlaying` ends
up `true`. -/
theorem c7_handleEnded (s : AudioPlayerState) :
    (s.currentQueueIndex = (s.queue.length : Int) - 1 →
      handleEnded s = { s with isPlaying := false }) ∧
    (∀ e, s.currentQueueIndex < (s.queue.length : Int) - 1 →
      listGetI s.queue (s.currentQueueIndex + 1) = some e →
      (handleEnded s).currentEpisode = some e ∧
      (handleEnded s).isPlaying = true) := by
  obtain ⟨ce, ip, ps, vol, ct, du, q, ci⟩ := s
  constructor
  · intro h
    dsimp only at h
    unfold handleEnded
    dsimp only
    rw [if_neg (by omega)]
  · intro e hlt hget
    dsimp only at hlt hget
    unfold handleEnded
    dsimp only
    rw [if_pos hlt]
    unfold playNext
    dsimp only
    rw [if_pos hlt, hget]
    simp only [playEpisode]
    split
    · exact ⟨rfl, rfl⟩
    · exact ⟨rfl, rfl⟩

/-- Witness for C7: two-element queue, pointer at 0; the ended event
advances onto `epB` and keeps playing. -/
theorem c7_handleEnded_witness :
    (handleEnded
        (addToQueue epB (playEpisode epA initialState))).currentEpisode
      = some epB ∧
    (handleEnded (addToQueue epB (playEpisode epA initialState))).isPlaying
      = true :=
  (c7_handleEnded (addToQueue epB (playEpisode epA initialState))).2 epB
    (by decide) (by decide)

/-! ### Progress-persistence debounce (lines 25-41) -/

/-- One pending debounced progress write: the scheduled fire time
(`now + 2000` ms at scheduling), the episode id and the playback
position captured by the tick. -/
abbrev PendingWrite := ℚ × String × ℚ

/-- `updateTimeProgress(episodeId, time)` (lines 25-32) called at wall
time `now`, with the `onTimeProgress` callback configured: an empty id
returns early and leaves any pending timer untouched; otherwise the
pending timer is cleared (`clearTimeout`) and a fresh write is scheduled
2000 ms out (`setTimeout`). -/
def updateTimeProgress (now : ℚ) (episodeId : String) (time : ℚ)
    (pending : Option PendingWrite) : Option PendingWrite :=
  if episodeId = "" then pending
  else some (now + 2000, episodeId, time)

/-- Run a trace of time-update ticks `(wall time, episode id, position)`
against the single debounce timer, collecting the `onTimeProgress`
writes in order. A pending timer whose scheduled time has been reached
fires before the next tick is processed, and a timer still pending when
the trace ends fires once the trace goes quiet. -/
def debounceRun (pending : Option PendingWrite) :
    List (ℚ × String × ℚ) → List (String × ℚ)
  | [] =>
      match pending with
      | some (_, pid, pt) => [(pid, pt)]
      | none => []
  | (now, epId, t) :: rest =>
      match pending with
      | some (fireAt, pid, pt) =>
          if fireAt ≤ now then
            (pid, pt) :: debounceRun (updateTimeProgress now epId t none) rest
          else
            debounceRun
              (updateTimeProgress now epId t (some (fireAt, pid, pt))) rest
      | none => debounceRun (updateTimeProgress now epId t none) rest

/-- Trailing-edge debounce stated directly on the trace: a tick is
persisted exactly when no further tick arrives within 2000 ms of it (a
closer successor cancels it), and the persisted payload is that tick's
own id and position. -/
def debounceWrites : List (ℚ × String × ℚ) → List (String × ℚ)
  | [] => []
  | (n1, id1, t1) :: rest =>
      match rest with
      | [] => [(id1, t1)]
      | (n2, _, _) :: _ =>
          if n1 + 2000 ≤ n2 then (id1, t1) :: debounceWrites rest
          else debounceWrites rest

theorem debounceRun_cons_some (fireAt : ℚ) (pid : String) (pt : ℚ)
    (now : ℚ) (epId : String) (t : ℚ) (rest : List (ℚ × String × ℚ)) :
    debounceRun (some (fireAt, pid, pt)) ((now, epId, t) :: rest) =
      if fireAt ≤ now then
        (pid, pt) :: debounceRun (updateTimeProgress now epId t none) rest
      else
        debounceRun
          (updateTimeProgress now epId t (some (fireAt, pid, pt))) rest := rfl

theorem debounceRun_cons_none (now : ℚ) (epId : String) (t : ℚ)
    (rest : List (ℚ × String × ℚ)) :
    debounceRun none ((now, epId, t) :: rest) =
      debounceRun (updateTimeProgress now epId t none) rest := rfl

theorem debounceWrites_cons_cons (n1 n2 : ℚ) (id1 id2 : String)
    (t1 t2 : ℚ) (rest : List (ℚ × String × ℚ)) :
    debounceWrites ((n1, id1, t1) :: (n2, id2, t2) :: rest) =
      if n1 + 2000 ≤ n2 then
        (id1, t1) :: debounceWrites ((n2, id2, t2) :: rest)
      else debounceWrites ((n2, id2, t2) :: rest) := rfl

theorem debounceRun_pending :
    ∀ (ticks : List (ℚ × String × ℚ)) (n1 : ℚ) (id1 : String) (t1 : ℚ),
      (∀ x ∈ ticks, x.2.1 ≠ "") →
      debounceRun (some (n1 + 2000, id1, t1)) ticks =
        debounceWrites ((n1, id1, t1) :: ticks) := by
  intro ticks
  induction ticks with
  | nil => intro n1 id1 t1 _; rfl
  | cons hd rest ih =>
      intro n1 id1 t1 hids
      obtain ⟨n2, id2, t2⟩ := hd
      have hid2 : id2 ≠ "" := hids (n2, id2, t2) (List.mem_cons_self _ _)
      have hupd : ∀ p : Option PendingWrite,
          updateTimeProgress n2 id2 t2 p = some (n2 + 2000, id2, t2) := by
        intro p
        simp [updateTimeProgress, hid2]
      have hrest : ∀ x ∈ rest, x.2.1 ≠ "" :=
        fun x hx => hids x (List.mem_cons_of_mem _ hx)
      rw [debounceRun_cons_some, hupd none, hupd (some (n1 + 2000, id1, t1)),
        debounceWrites_cons_cons, ih n2 id2 t2 hrest]

/-- C8: for any time-ordered trace of time-update ticks for the active
episode (non-empty ids), the writes the debounce emits are exactly
`debounceWrites`: a tick with a successor strictly inside its 2000 ms
quiet window is cancelled and never persisted, at most one write arises
per quiet window, and each write carries the surviving (last) tick's own
episode id and position. -/
theorem c8_debounce_trailing_edge (ticks : List (ℚ × String × ℚ))
    (_hmono : List.Chain' (fun a b => a.1 < b.1) ticks)
    (hids : ∀ x ∈ ticks, x.2.1 ≠ "") :
    debounceRun none ticks = debounceWrites ticks := by
  cases ticks with
  | nil => rfl
  | cons hd rest =>
      obtain ⟨n1, id1, t1⟩ := hd
      have hid1 : id1 ≠ "" := hids (n1, id1, t1) (List.mem_cons_self _ _)
      rw [debounceRun_cons_none,
        show updateTimeProgress n1 id1 t1 none = some (n1 + 2000, id1, t1)
          by simp [updateTimeProgress, hid1]]
      exact debounceRun_pending rest n1 id1 t1
        (fun x hx => hids x (List.mem_cons_of_mem _ hx))

/-- Witness for C8: of three ticks at 0 ms, 1500 ms and 4000 ms, the
first is cancelled (successor within 2000 ms) and the last two values are
persisted. -/
theorem c8_debounce_trailing_edge_witness :
    debounceRun none
        [((0 : ℚ), "ep-a", (5 : ℚ)), ((1500 : ℚ), "ep-a", (7 : ℚ)),
          ((4000 : ℚ), "ep-a", (9 : ℚ))] =
      debounceWrites
        [((0 : ℚ), "ep-a", (5 : ℚ)), ((1500 : ℚ), "ep-a", (7 : ℚ)),
          ((4000 : ℚ), "ep-a", (9 : ℚ))] ∧
    debounceWrites
        [((0 : ℚ), "ep-a", (5 : ℚ)), ((1500 : ℚ), "ep-a", (7 : ℚ)),
          ((4000 : ℚ), "ep-a", (9 : ℚ))] =
      [("ep-a", (7 : ℚ)), ("ep-a", (9 : ℚ))] := by
  constructor
  · exact c8_debounce_trailing_edge _
      (by norm_num [List.chain'_cons]) (by decide)
  · rw [debounceWrites_cons_cons, if_neg (by norm_num),
      debounceWrites_cons_cons, if_pos (by norm_num)]
    rfl

/-! ### Play-request rejection handling (lines 88-97 and 208-221) -/

/-- `episodeProgress[episode.id] || 0` at bind time. -/
def savedProgress (episodeProgress : List (String × ℚ)) (epId : String) :
    ℚ :=
  match episodeProgress.lookup epId with
  | some t => t
  | none => 0

/-- The one-shot `loadedmetadata` handler registered by `playEpisode`
(lines 88-97): the element is seeked to the saved progress for the bound
episode and a play request is issued; a platform rejection is caught and
the handler forces `isPlaying := false`. Result: the element position
written, and the application state after the handler (and, on rejection,
its catch) ran. -/
def bindLoadedMetadata (episodeProgress : List (String × ℚ))
    (episode : Episode) (playRejected : Bool) (s : AudioPlayerState) :
    ℚ × AudioPlayerState :=
  (savedProgress episodeProgress episode.id,
    if playRejected then { s with isPlaying := false } else s)

/-- The `isPlaying`-driven reconciliation effect (lines 208-221): when the
intent is playing and an episode is current, a play request is issued
only if the element's loaded source matches and `readyState >= 2`; a
rejection of that request is caught and forces `isPlaying := false`. The
pause command on the not-playing side touches only the element, not the
state. -/
def reconcileEffect (srcMatches : Bool) (readyState : Nat)
    (playRejected : Bool) (s : AudioPlayerState) : AudioPlayerState :=
  if s.isPlaying ∧ s.currentEpisode.isSome then
    if srcMatches ∧ 2 ≤ readyState then
      if playRejected then { s with isPlaying := false } else s
    else s
  else s

/-- C9: whenever a play request is rejected by the platform, the catch
handler on that path forces `isPlaying` to `false` — on the bind-time
metadata-ready handler unconditionally, and on the reconciliation effect
under exactly the guards that make it issue a play request. -/
theorem c9_play_rejection_forces_paused (s : AudioPlayerState)
    (episodeProgress : List (String × ℚ)) (episode : Episode)
    (srcMatches : Bool) (readyState : Nat) :
    ((bindLoadedMetadata episodeProgress episode true s).2.isPlaying
      = false) ∧
    (s.isPlaying = true → s.currentEpisode.isSome = true →
      srcMatches = true → 2 ≤ readyState →
      (reconcileEffect srcMatches readyState true s).isPlaying = false) := by
  constructor
  · rfl
  · intro h1 h2 h3 h4
    simp [reconcileEffect, h1, h2, h3, h4]

/-- Witness for C9 on a concrete playing state with a ready, matching
element. -/
theorem c9_play_rejection_forces_paused_witness :
    (reconcileEffect true 2 true
      { initialState with isPlaying := true
                          currentEpisode := some epA }).isPlaying
      = false :=
  (c9_play_rejection_forces_paused
    { initialState with isPlaying := true, currentEpisode := some epA }
    [] epA true 2).2 rfl rfl rfl (le_refl 2)

end Podflow
